import Mathlib

/-!
Orbital watch face: embedding of `src/main.c`.

Bytes of a C `char` buffer are natural numbers (the value of the byte read as
an `unsigned char`), a buffer is a `List Nat`, and a C string inside a buffer
is the run of bytes before the first `0`.  C `int` / `int32_t` values are
integers, every arithmetic result being reduced to 32 bits by `wrap32`.
Code that reads outside its buffer, or a library call whose result the C
standard leaves unspecified, yields `none`.
-/

namespace Orbital

/-! ## `upcase` (main.c, lines 19-29) -/

/-- The loop `for (int i = 0; str[i] != 0; i++) { ... }` of `upcase`, started
at index `i`.  `str[i]` read beyond the buffer is undefined behaviour
(`none`).  The first argument bounds the number of iterations; `upcase`
passes one more than the buffer length, which the index cannot outlive. -/
def upcaseLoop : Nat → List Nat → Nat → Option (List Nat)
  | 0, _, _ => none
  | fuel + 1, str, i =>
    match str[i]? with
    | none => none
    | some c =>
      if c = 0 then some str
      else if 0x61 ≤ c ∧ c ≤ 0x7a then
        upcaseLoop fuel (str.set i ((c - 0x20) % 256)) (i + 1)
      else upcaseLoop fuel str (i + 1)

/-- The function `char *upcase(char *str)`: the returned pointer is `str`
itself, so the result is the content of that same buffer after the loop. -/
def upcase (str : List Nat) : Option (List Nat) :=
  upcaseLoop (str.length + 1) str 0

/-- The effect of one loop body of `upcase` on a single byte. -/
def upcaseByte (c : Nat) : Nat :=
  if 0x61 ≤ c ∧ c ≤ 0x7a then c - 0x20 else c

/-- A buffer holds a NUL-terminated string of length `n`: byte `n` is the
first zero byte. -/
def IsCStr (str : List Nat) (n : Nat) : Prop :=
  str[n]? = some 0 ∧ ∀ j, j < n → str[j]? ≠ some 0

/-! ## Machine integers and the clock reading -/

/-- Reduction of an integer to the value a 32-bit two's-complement `int`
holds. -/
def wrap32 (x : Int) : Int :=
  (x + 2147483648) % 4294967296 - 2147483648

/-- Reduction of an integer to the value an `int16_t` holds (the coordinate
type of `GPoint` and `GRect`). -/
def wrap16 (x : Int) : Int :=
  (x + 32768) % 65536 - 32768

/-- Modelled from the spec: the SDK constant `TRIG_MAX_ANGLE`, declared in
`pebble.h`, which is not among the sources; the angle of a full turn,
`0x10000`. -/
def TRIG_MAX_ANGLE : Int := 0x10000

/-- Modelled from the spec: the SDK constant `TRIG_MAX_RATIO`, declared in
`pebble.h`, which is not among the sources; the lookup value that stands for
1, `0xffff`. -/
def TRIG_MAX_RATIO : Int := 0xffff

/-- The fields of `struct tm` that the program reads. -/
structure Tm where
  tm_min : Int
  tm_hour : Int
  tm_mday : Int
  tm_mon : Int
  tm_wday : Int
  deriving DecidableEq

/-- A `GPoint` of the SDK: a pair of `int16_t` coordinates. -/
structure GPoint where
  x : Int
  y : Int
  deriving DecidableEq

/-- A `GRect` of the SDK: origin and size. -/
structure GRect where
  x : Int
  y : Int
  w : Int
  h : Int
  deriving DecidableEq

/-- The abbreviated names `strftime` takes from the current locale. -/
structure Locale where
  abday : Nat → List Nat
  abmon : Nat → List Nat

/-- The bytes of a string literal, without the terminator. -/
def cstr (s : String) : List Nat :=
  s.toList.map Char.toNat

/-- The abbreviated names of the "C" locale. -/
def cLocale : Locale where
  abday := fun d =>
    ([cstr "Sun", cstr "Mon", cstr "Tue", cstr "Wed", cstr "Thu", cstr "Fri",
      cstr "Sat"].getD d [])
  abmon := fun m =>
    ([cstr "Jan", cstr "Feb", cstr "Mar", cstr "Apr", cstr "May", cstr "Jun",
      cstr "Jul", cstr "Aug", cstr "Sep", cstr "Oct", cstr "Nov",
      cstr "Dec"].getD m [])

/-! ## `strftime` (C library) -/

/-- Modelled from the spec: the two-digit zero-padded decimal that the C
library writes for `%H`, `%M` and `%d`; the library is not among the
sources. -/
def twoDigits (n : Int) : List Nat :=
  [0x30 + (n / 10).toNat, 0x30 + (n % 10).toNat]

/-- Modelled from the spec: the text `strftime` substitutes for the
conversion `%c`, for the five conversions the program uses.  A field outside
its normal range leaves the stored characters unspecified (`none`). -/
def strftimeConv (loc : Locale) (t : Tm) (c : Nat) : Option (List Nat) :=
  if c = 0x48 then
    if 0 ≤ t.tm_hour ∧ t.tm_hour ≤ 23 then some (twoDigits t.tm_hour) else none
  else if c = 0x4d then
    if 0 ≤ t.tm_min ∧ t.tm_min ≤ 59 then some (twoDigits t.tm_min) else none
  else if c = 0x64 then
    if 1 ≤ t.tm_mday ∧ t.tm_mday ≤ 31 then some (twoDigits t.tm_mday) else none
  else if c = 0x61 then
    if 0 ≤ t.tm_wday ∧ t.tm_wday ≤ 6 then some (loc.abday t.tm_wday.toNat)
    else none
  else if c = 0x62 then
    if 0 ≤ t.tm_mon ∧ t.tm_mon ≤ 11 then some (loc.abmon t.tm_mon.toNat)
    else none
  else none

/-- Modelled from the spec: the expansion of a `strftime` format: a `%`
introduces a conversion, any other byte is copied. -/
def strftimeExpand (loc : Locale) (t : Tm) : List Nat → Option (List Nat)
  | [] => some []
  | c :: rest =>
    if c = 0x25 then
      match rest with
      | [] => none
      | d :: rest2 =>
        match strftimeConv loc t d, strftimeExpand loc t rest2 with
        | some a, some b => some (a ++ b)
        | _, _ => none
    else
      match strftimeExpand loc t rest with
      | some b => some (c :: b)
      | none => none

/-- Modelled from the spec: `strftime(s, maxsize, format, t)` of the C
library, which is not among the sources.  When the expansion and its
terminator fit in `maxsize` bytes they are stored at the start of `s`;
otherwise the content of `s` is indeterminate (`none`), as it is when
`maxsize` exceeds the size of `s`. -/
def strftime (s : List Nat) (maxsize : Nat) (format : List Nat) (loc : Locale)
    (t : Tm) : Option (List Nat) :=
  match strftimeExpand loc t format with
  | none => none
  | some out =>
    if out.length + 1 ≤ maxsize ∧ maxsize ≤ s.length then
      some (out ++ [0] ++ s.drop (out.length + 1))
    else none

/-! ## `hands_update_proc` (main.c, lines 31-68) -/

/-- What one run of `hands_update_proc` computes: the local variables, the
clock reading as left in `*t`, the two label buffers, and the rectangles
passed to `graphics_draw_text`. -/
structure HandsDraw where
  minute_angle : Int
  minY : Int
  minX : Int
  t : Tm
  s_hour_buffer : Option (List Nat)
  s_minute_buffer : Option (List Nat)
  minute_rect : GRect
  hour_rect : GRect

/-- The function `hands_update_proc`.  The SDK services it calls are
arguments: the lookups `sin_lookup` and `cos_lookup`, the answer of
`clock_is_24h_style()`, the locale of `strftime`, the clock reading `t`
returned by `localtime`, and the `center` of the layer bounds.  The last two
arguments are the global buffers `s_hour_buffer` and `s_minute_buffer` before
the call. -/
def hands_update_proc (sin_lookup cos_lookup : Int → Int)
    (clock_is_24h_style : Bool) (loc : Locale) (t : Tm) (center : GPoint)
    (s_hour_buffer s_minute_buffer : List Nat) : HandsDraw :=
  let minute_angle := wrap32 (Int.tdiv (wrap32 (TRIG_MAX_ANGLE * t.tm_min)) 60)
  let minY :=
    wrap32 (Int.tdiv (wrap32 (-56 * cos_lookup minute_angle)) TRIG_MAX_RATIO
      + center.y)
  let minX :=
    wrap32 (Int.tdiv (wrap32 (56 * sin_lookup minute_angle)) TRIG_MAX_RATIO
      + center.x)
  let t1 : Tm :=
    if !clock_is_24h_style then
      if t.tm_hour > 11 then
        if t.tm_hour > 12 then { t with tm_hour := wrap32 (t.tm_hour - 12) }
        else t
      else
        if t.tm_hour = 0 then { t with tm_hour := 12 } else t
    else t
  { minute_angle := minute_angle
    minY := minY
    minX := minX
    t := t1
    s_hour_buffer := strftime s_hour_buffer 3 (cstr "%H") loc t1
    s_minute_buffer := strftime s_minute_buffer 3 (cstr "%M") loc t1
    minute_rect :=
      ⟨wrap16 (wrap32 (minX - 20)), wrap16 (wrap32 (minY - 15)), 40, 40⟩
    hour_rect :=
      ⟨wrap16 (wrap32 (center.x - 30)), wrap16 (wrap32 (center.y - 31)), 60, 60⟩ }

/-- The 12-hour conversion policy in the words of the specification: a raw
hour of 0 is shown as 12, a raw hour from 13 to 23 has 12 subtracted, and the
hours 1 to 12 pass through unchanged. -/
def spec_hour12 (h : Int) : Int :=
  if h = 0 then 12 else if 13 ≤ h ∧ h ≤ 23 then h - 12 else h

/-! ## `date_update_proc` (main.c, lines 70-80) -/

/-- The function `date_update_proc`: `strftime` into the 11-byte global
`s_date_buffer`, then `upcase` on it.  The result is the buffer handed to
`text_layer_set_text`. -/
def date_update_proc (loc : Locale) (t : Tm) (s_date_buffer : List Nat) :
    Option (List Nat) :=
  match strftime s_date_buffer 11 (cstr "%a %b %d") loc t with
  | none => none
  | some buf => upcase buf

/-- The initial value of the global `s_date_buffer`, whose size is fixed by
its initialiser `"XXX XXX XX"`. -/
def s_date_buffer_initial : List Nat :=
  cstr "XXX XXX XX" ++ [0]

/-! ## The redraw trigger (main.c, lines 82-85 and 128-141) -/

/-- The two states of the root layer as seen by the program. -/
inductive RedrawState where
  | idle
  | dirty
  deriving DecidableEq

/-- Modelled from the spec: the SDK call `layer_mark_dirty`, which is not
among the sources; it flags the layer for the next redraw pass, whatever
its state was. -/
def layer_mark_dirty (_ : RedrawState) : RedrawState :=
  RedrawState.dirty

/-- The callback `timer_tick`: it marks the root layer of the window dirty
and reads neither of its arguments. -/
def timer_tick (s : RedrawState) : RedrawState :=
  layer_mark_dirty s

/-- Modelled from the spec: the redraw pass of the runtime, which is not
among the sources; it runs the update procedures of the layers and leaves
the layer clean. -/
def redraw_pass (_ : RedrawState) : RedrawState :=
  RedrawState.idle

/-- Modelled from the spec: the state after `init` has subscribed
`timer_tick`. -/
def initial_state : RedrawState :=
  RedrawState.idle

/-- The state after `n` minute ticks in a row. -/
def ticks : Nat → RedrawState → RedrawState
  | 0, s => s
  | n + 1, s => timer_tick (ticks n s)

/-! ## Sample lookups -/

/-- A sine lookup that is exact at the four quarter turns and zero elsewhere,
used to instantiate the anchor theorems. -/
def quarter_sin (a : Int) : Int :=
  if a = 16384 then 65535 else if a = 49152 then -65535 else 0

/-- The cosine lookup that goes with `quarter_sin`. -/
def quarter_cos (a : Int) : Int :=
  if a = 0 then 65535 else if a = 32768 then -65535 else 0

/-! ## Theorems: `upcase` -/

theorem upcaseByte_eq_mod (c : Nat) (h : 0x61 ≤ c ∧ c ≤ 0x7a) :
    (c - 0x20) % 256 = upcaseByte c := by
  unfold upcaseByte
  rw [if_pos h]
  omega

theorem upcaseByte_ne_zero (c : Nat) (h : c ≠ 0) : upcaseByte c ≠ 0 := by
  unfold upcaseByte
  split <;> omega

theorem upcaseByte_not_lower (c : Nat) :
    ¬ (0x61 ≤ upcaseByte c ∧ upcaseByte c ≤ 0x7a) := by
  unfold upcaseByte
  split <;> omega

/-- Loop invariant of `upcase`: started at index `i` of a buffer whose first
zero byte at or after `i` is at `n`, with enough iterations left, the loop
returns, and it has rewritten exactly the bytes `i .. n - 1`. -/
theorem upcaseLoop_spec (fuel : Nat) :
    ∀ (str : List Nat) (i n : Nat), str[n]? = some 0 → i ≤ n →
      (∀ j, i ≤ j → j < n → str[j]? ≠ some 0) → n - i < fuel →
      ∃ out, upcaseLoop fuel str i = some out ∧ out.length = str.length ∧
        ∀ j, out[j]? =
          if i ≤ j ∧ j < n then (str[j]?).map upcaseByte else str[j]? := by
  induction fuel with
  | zero => intro str i n _ _ _ hf; omega
  | succ fuel ih =>
    intro str i n hn hin hnz hf
    have hnlen : n < str.length := (List.getElem?_eq_some_iff.mp hn).1
    have hilen : i < str.length := by omega
    have hi : str[i]? = some str[i] := List.getElem?_eq_getElem hilen
    rw [upcaseLoop, hi]
    simp only
    by_cases hc : str[i] = 0
    · rw [if_pos hc]
      have hieq : i = n := by
        by_contra hne
        exact hnz i (Nat.le_refl i) (by omega) (by rw [hi, hc])
      refine ⟨str, rfl, rfl, ?_⟩
      intro j
      rw [if_neg (by omega)]
    · rw [if_neg hc]
      have hlt : i < n := by
        rcases Nat.lt_or_ge i n with h | h
        · exact h
        · exfalso
          have hieq : i = n := by omega
          subst hieq
          rw [hi] at hn
          exact hc (Option.some.inj hn)
      by_cases hl : 0x61 ≤ str[i] ∧ str[i] ≤ 0x7a
      · rw [if_pos hl, upcaseByte_eq_mod _ hl]
        have hne : i ≠ n := by omega
        obtain ⟨out, ho, hlen, hget⟩ :=
          ih (str.set i (upcaseByte str[i])) (i + 1) n
            (by rw [List.getElem?_set_ne hne]; exact hn) (by omega)
            (fun j hj1 hj2 => by
              rw [List.getElem?_set_ne (by omega)]
              exact hnz j (by omega) hj2)
            (by omega)
        refine ⟨out, ho, by rw [hlen, List.length_set], ?_⟩
        intro j
        rw [hget j]
        by_cases hji : j = i
        · subst hji
          rw [if_neg (by omega), if_pos ⟨Nat.le_refl _, hlt⟩, List.getElem?_set,
            if_pos rfl, if_pos hilen, hi]
          rfl
        · rw [List.getElem?_set_ne (fun h => hji h.symm)]
          by_cases hcond : i ≤ j ∧ j < n
          · rw [if_pos hcond, if_pos (by omega)]
          · rw [if_neg hcond, if_neg (by omega)]
      · rw [if_neg hl]
        obtain ⟨out, ho, hlen, hget⟩ :=
          ih str (i + 1) n hn (by omega)
            (fun j hj1 hj2 => hnz j (by omega) hj2) (by omega)
        refine ⟨out, ho, hlen, ?_⟩
        intro j
        rw [hget j]
        by_cases hji : j = i
        · subst hji
          rw [if_neg (by omega), if_pos ⟨Nat.le_refl _, hlt⟩, hi]
          simp only [Option.map_some', upcaseByte, if_neg hl]
        · by_cases hcond : i ≤ j ∧ j < n
          · rw [if_pos hcond, if_pos (by omega)]
          · rw [if_neg hcond, if_neg (by omega)]

/-- A run of `upcase` on a buffer holding a C string of length `n`. -/
theorem upcase_run (str : List Nat) (n : Nat) (h : IsCStr str n) :
    ∃ out, upcase str = some out ∧ out.length = str.length ∧
      ∀ j, out[j]? = if j < n then (str[j]?).map upcaseByte else str[j]? := by
  obtain ⟨out, ho, hlen, hget⟩ :=
    upcaseLoop_spec (str.length + 1) str 0 n h.1 (Nat.zero_le n)
      (fun j _ hj => h.2 j hj)
      (by have := (List.getElem?_eq_some_iff.mp h.1).1; omega)
  refine ⟨out, ho, hlen, ?_⟩
  intro j
  rw [hget j]
  by_cases hj : j < n
  · rw [if_pos ⟨Nat.zero_le j, hj⟩, if_pos hj]
  · rw [if_neg (fun hh => hj hh.2), if_neg hj]

/-- C1: for every buffer holding a NUL-terminated string of length `n`,
`upcase` returns; the returned buffer has the same size and holds a string of
the same length `n`; at every position of the string a byte in `'a'..'z'` has
become that byte minus `0x20` (a byte in `'A'..'Z'`), and every other byte,
the terminator and what follows it included, is unchanged. -/
theorem upcase_contract (str : List Nat) (n : Nat) (h : IsCStr str n) :
    ∃ out, upcase str = some out ∧ out.length = str.length ∧ IsCStr out n ∧
      ∀ j c, str[j]? = some c →
        (j < n → 0x61 ≤ c ∧ c ≤ 0x7a →
          out[j]? = some (c - 0x20) ∧ 0x41 ≤ c - 0x20 ∧ c - 0x20 ≤ 0x5a) ∧
        (¬ (j < n ∧ 0x61 ≤ c ∧ c ≤ 0x7a) → out[j]? = some c) := by
  obtain ⟨out, ho, hlen, hget⟩ := upcase_run str n h
  refine ⟨out, ho, hlen, ⟨?_, ?_⟩, ?_⟩
  · rw [hget n, if_neg (Nat.lt_irrefl n)]
    exact h.1
  · intro j hj
    rw [hget j, if_pos hj]
    have hjlen : j < str.length := by
      have := (List.getElem?_eq_some_iff.mp h.1).1
      omega
    rw [List.getElem?_eq_getElem hjlen]
    intro hz
    have h0 : upcaseByte str[j] = 0 := Option.some.inj hz
    have hne : str[j] ≠ 0 := by
      intro h1
      exact h.2 j hj (by rw [List.getElem?_eq_getElem hjlen, h1])
    exact upcaseByte_ne_zero _ hne h0
  · intro j c hc
    constructor
    · intro hj hl
      refine ⟨?_, by omega, by omega⟩
      rw [hget j, if_pos hj, hc]
      simp only [Option.map_some', upcaseByte, if_pos hl]
    · intro hnot
      rw [hget j, hc]
      by_cases hj : j < n
      · rw [if_pos hj]
        have hl : ¬ (0x61 ≤ c ∧ c ≤ 0x7a) := fun hl => hnot ⟨hj, hl⟩
        simp only [Option.map_some', upcaseByte, if_neg hl]
      · rw [if_neg hj]

/-- Witness of C1 on the buffer "a1 Zb" followed by its terminator and one
more byte. -/
theorem upcase_contract_witness :
    IsCStr [0x61, 0x31, 0x20, 0x5a, 0x62, 0, 0x63] 5 ∧
    ∃ out, upcase [0x61, 0x31, 0x20, 0x5a, 0x62, 0, 0x63] = some out ∧
      out.length = [0x61, 0x31, 0x20, 0x5a, 0x62, 0, 0x63].length ∧
      IsCStr out 5 ∧
      ∀ j c, [0x61, 0x31, 0x20, 0x5a, 0x62, 0, 0x63][j]? = some c →
        (j < 5 → 0x61 ≤ c ∧ c ≤ 0x7a →
          out[j]? = some (c - 0x20) ∧ 0x41 ≤ c - 0x20 ∧ c - 0x20 ≤ 0x5a) ∧
        (¬ (j < 5 ∧ 0x61 ≤ c ∧ c ≤ 0x7a) → out[j]? = some c) :=
  ⟨⟨by decide, by decide⟩,
    upcase_contract [0x61, 0x31, 0x20, 0x5a, 0x62, 0, 0x63] 5
      ⟨by decide, by decide⟩⟩

/-- C2: `upcase` is idempotent: on every buffer holding a NUL-terminated
string the call returns a buffer, and a second call on that buffer returns
it unchanged. -/
theorem upcase_idempotent (str : List Nat) (n : Nat) (h : IsCStr str n) :
    ∃ out, upcase str = some out ∧ upcase out = some out := by
  obtain ⟨out, ho, hlen, hget⟩ := upcase_run str n h
  have hout : IsCStr out n := by
    constructor
    · rw [hget n, if_neg (Nat.lt_irrefl n)]
      exact h.1
    · intro j hj
      rw [hget j, if_pos hj]
      have hjlen : j < str.length := by
        have := (List.getElem?_eq_some_iff.mp h.1).1
        omega
      rw [List.getElem?_eq_getElem hjlen]
      intro hz
      have hne : str[j] ≠ 0 := by
        intro h1
        exact h.2 j hj (by rw [List.getElem?_eq_getElem hjlen, h1])
      exact upcaseByte_ne_zero _ hne (Option.some.inj hz)
  obtain ⟨out2, ho2, _, hget2⟩ := upcase_run out n hout
  refine ⟨out, ho, ?_⟩
  rw [ho2]
  congr 1
  apply List.ext_getElem?
  intro j
  rw [hget2 j]
  by_cases hj : j < n
  · rw [if_pos hj, hget j, if_pos hj]
    cases str[j]? with
    | none => rfl
    | some c =>
      simp only [Option.map_some']
      congr 1
      have := upcaseByte_not_lower c
      rw [upcaseByte, if_neg this]
  · rw [if_neg hj]

/-- Witness of C2 on the buffer "Wed mar 05" with its terminator. -/
theorem upcase_idempotent_witness :
    IsCStr (cstr "Wed mar 05" ++ [0]) 10 ∧
    ∃ out, upcase (cstr "Wed mar 05" ++ [0]) = some out ∧
      upcase out = some out :=
  ⟨⟨by decide, by decide⟩,
    upcase_idempotent (cstr "Wed mar 05" ++ [0]) 10 ⟨by decide, by decide⟩⟩

/-! ## Theorems: the hour and the labels -/

theorem wrap32_eq (x : Int) (h1 : -2147483648 ≤ x) (h2 : x < 2147483648) :
    wrap32 x = x := by
  unfold wrap32
  omega

/-- The clock reading that `hands_update_proc` leaves in `*t` differs from
the one it was given in the hour only. -/
theorem hands_tm_min (sin_lookup cos_lookup : Int → Int) (b : Bool)
    (loc : Locale) (t : Tm) (center : GPoint) (hb mb : List Nat) :
    (hands_update_proc sin_lookup cos_lookup b loc t center hb mb).t.tm_min
      = t.tm_min := by
  unfold hands_update_proc
  simp only
  split
  · split
    · split <;> rfl
    · split <;> rfl
  · rfl

/-- The value of `t->tm_hour` after the first part of `hands_update_proc`. -/
theorem hands_tm_hour (sin_lookup cos_lookup : Int → Int) (b : Bool)
    (loc : Locale) (t : Tm) (center : GPoint) (hb mb : List Nat)
    (h0 : 0 ≤ t.tm_hour) (h23 : t.tm_hour ≤ 23) :
    (hands_update_proc sin_lookup cos_lookup b loc t center hb mb).t.tm_hour
      = if b then t.tm_hour else spec_hour12 t.tm_hour := by
  unfold hands_update_proc spec_hour12
  simp only
  cases b with
  | true => simp
  | false =>
    simp only [Bool.not_false, if_true]
    by_cases h11 : t.tm_hour > 11
    · rw [if_pos h11]
      by_cases h12 : t.tm_hour > 12
      · rw [if_pos h12]
        simp only [Bool.false_eq_true, if_false]
        rw [if_neg (by omega), if_pos (by omega), wrap32_eq _ (by omega) (by omega)]
      · rw [if_neg h12]
        simp only [Bool.false_eq_true, if_false]
        rw [if_neg (by omega), if_neg (by omega)]
    · rw [if_neg h11]
      by_cases hz : t.tm_hour = 0
      · rw [if_pos hz]
        simp only [Bool.false_eq_true, if_false]
        rw [if_pos hz]
      · rw [if_neg hz]
        simp only [Bool.false_eq_true, if_false]
        rw [if_neg hz, if_neg (by omega)]

/-- What `strftime` stores into a 3-byte buffer for the format `%H`. -/
theorem strftime_H (s : List Nat) (loc : Locale) (t : Tm) (hs : s.length = 3)
    (h0 : 0 ≤ t.tm_hour) (h23 : t.tm_hour ≤ 23) :
    strftime s 3 (cstr "%H") loc t = some (twoDigits t.tm_hour ++ [0]) := by
  have hf : cstr "%H" = [0x25, 0x48] := by decide
  rw [hf]
  unfold strftime
  simp only [strftimeExpand, strftimeConv, if_true, if_pos (And.intro h0 h23)]
  simp [twoDigits, hs]

/-- What `strftime` stores into a 3-byte buffer for the format `%M`. -/
theorem strftime_M (s : List Nat) (loc : Locale) (t : Tm) (hs : s.length = 3)
    (h0 : 0 ≤ t.tm_min) (h59 : t.tm_min ≤ 59) :
    strftime s 3 (cstr "%M") loc t = some (twoDigits t.tm_min ++ [0]) := by
  have hf : cstr "%M" = [0x25, 0x4d] := by decide
  rw [hf]
  unfold strftime
  simp only [strftimeExpand, strftimeConv, if_true, if_pos (And.intro h0 h59)]
  simp [twoDigits, hs]

/-- The two bytes of `twoDigits n`, for `0 ≤ n ≤ 99`, are decimal digits and
`n` is their value. -/
theorem twoDigits_spec (n : Int) (h0 : 0 ≤ n) (h99 : n ≤ 99) :
    ∃ d1 d0 : Nat, d1 ≤ 9 ∧ d0 ≤ 9 ∧ twoDigits n = [0x30 + d1, 0x30 + d0] ∧
      (10 * d1 + d0 : Int) = n := by
  refine ⟨(n / 10).toNat, (n % 10).toNat, ?_, ?_, rfl, ?_⟩ <;> omega

theorem hands_hour_buffer (sin_lookup cos_lookup : Int → Int) (b : Bool)
    (loc : Locale) (t : Tm) (center : GPoint) (hb mb : List Nat) :
    (hands_update_proc sin_lookup cos_lookup b loc t center hb mb).s_hour_buffer
      = strftime hb 3 (cstr "%H") loc
          (hands_update_proc sin_lookup cos_lookup b loc t center hb mb).t :=
  rfl

theorem hands_minute_buffer (sin_lookup cos_lookup : Int → Int) (b : Bool)
    (loc : Locale) (t : Tm) (center : GPoint) (hb mb : List Nat) :
    (hands_update_proc sin_lookup cos_lookup b loc t center hb mb).s_minute_buffer
      = strftime mb 3 (cstr "%M") loc
          (hands_update_proc sin_lookup cos_lookup b loc t center hb mb).t :=
  rfl

theorem spec_hour12_range (h : Int) (h0 : 0 ≤ h) (h23 : h ≤ 23) :
    1 ≤ spec_hour12 h ∧ spec_hour12 h ≤ 12 := by
  unfold spec_hour12
  split
  · omega
  · split <;> omega

theorem twoDigits_inj (a b : Int) (ha0 : 0 ≤ a) (ha : a ≤ 99) (hb0 : 0 ≤ b)
    (hb : b ≤ 99) (h : twoDigits a = twoDigits b) : a = b := by
  unfold twoDigits at h
  simp only [List.cons.injEq, and_true] at h
  omega

/-- C3: when `clock_is_24h_style()` answers false, so that the 12-hour
adjustment of `hands_update_proc` is performed, a raw hour `h` in `0..23`
leaves `tm_hour` equal to 12 if `h = 0`, to `h - 12` if `13 ≤ h ≤ 23`, and to
`h` if `1 ≤ h ≤ 12`; the adjusted hour lies in `1..12`. -/
theorem hour_adjust_12h (sin_lookup cos_lookup : Int → Int) (loc : Locale)
    (t : Tm) (center : GPoint) (hb mb : List Nat)
    (h0 : 0 ≤ t.tm_hour) (h23 : t.tm_hour ≤ 23) :
    (t.tm_hour = 0 →
      (hands_update_proc sin_lookup cos_lookup false loc t center hb mb).t.tm_hour
        = 12) ∧
    (13 ≤ t.tm_hour →
      (hands_update_proc sin_lookup cos_lookup false loc t center hb mb).t.tm_hour
        = t.tm_hour - 12) ∧
    (1 ≤ t.tm_hour → t.tm_hour ≤ 12 →
      (hands_update_proc sin_lookup cos_lookup false loc t center hb mb).t.tm_hour
        = t.tm_hour) ∧
    1 ≤ (hands_update_proc sin_lookup cos_lookup false loc t center hb mb).t.tm_hour ∧
    (hands_update_proc sin_lookup cos_lookup false loc t center hb mb).t.tm_hour
      ≤ 12 := by
  have hh := hands_tm_hour sin_lookup cos_lookup false loc t center hb mb h0 h23
  simp only [Bool.false_eq_true, if_false] at hh
  rw [hh]
  have hr := spec_hour12_range t.tm_hour h0 h23
  refine ⟨?_, ?_, ?_, hr.1, hr.2⟩
  · intro hz
    rw [spec_hour12, if_pos hz]
  · intro h13
    rw [spec_hour12, if_neg (by omega), if_pos ⟨h13, h23⟩]
  · intro h1 h12
    rw [spec_hour12, if_neg (by omega), if_neg (by omega)]

/-- Witness of C3 at the raw hours 0, 13, 23 and 12. -/
theorem hour_adjust_12h_witness :
    (hands_update_proc (fun _ => 0) (fun _ => 0xffff) false cLocale
      ⟨0, 0, 5, 2, 3⟩ ⟨72, 84⟩ [0, 0, 0] [0, 0, 0]).t.tm_hour = 12 ∧
    (hands_update_proc (fun _ => 0) (fun _ => 0xffff) false cLocale
      ⟨0, 13, 5, 2, 3⟩ ⟨72, 84⟩ [0, 0, 0] [0, 0, 0]).t.tm_hour = 13 - 12 ∧
    (hands_update_proc (fun _ => 0) (fun _ => 0xffff) false cLocale
      ⟨0, 23, 5, 2, 3⟩ ⟨72, 84⟩ [0, 0, 0] [0, 0, 0]).t.tm_hour = 23 - 12 ∧
    (hands_update_proc (fun _ => 0) (fun _ => 0xffff) false cLocale
      ⟨0, 12, 5, 2, 3⟩ ⟨72, 84⟩ [0, 0, 0] [0, 0, 0]).t.tm_hour = 12 :=
  ⟨(hour_adjust_12h (fun _ => 0) (fun _ => 0xffff) cLocale ⟨0, 0, 5, 2, 3⟩
      ⟨72, 84⟩ [0, 0, 0] [0, 0, 0] (by decide) (by decide)).1 rfl,
    (hour_adjust_12h (fun _ => 0) (fun _ => 0xffff) cLocale ⟨0, 13, 5, 2, 3⟩
      ⟨72, 84⟩ [0, 0, 0] [0, 0, 0] (by decide) (by decide)).2.1 (by decide),
    (hour_adjust_12h (fun _ => 0) (fun _ => 0xffff) cLocale ⟨0, 23, 5, 2, 3⟩
      ⟨72, 84⟩ [0, 0, 0] [0, 0, 0] (by decide) (by decide)).2.1 (by decide),
    (hour_adjust_12h (fun _ => 0) (fun _ => 0xffff) cLocale ⟨0, 12, 5, 2, 3⟩
      ⟨72, 84⟩ [0, 0, 0] [0, 0, 0] (by decide) (by decide)).2.2.1 (by decide)
      (by decide)⟩

/-- C4 as stated fails: at the raw hour 13 with `clock_is_24h_style()`
answering true, the hour left in `tm_hour` is 13, not the 12-hour value 1,
and the hour label reads "13" where the answer false gives "01". -/
theorem hour_conversion_unconditional_counterexample :
    (hands_update_proc (fun _ => 0) (fun _ => 0xffff) true cLocale
      ⟨0, 13, 5, 2, 3⟩ ⟨72, 84⟩ [0, 0, 0] [0, 0, 0]).t.tm_hour
        ≠ spec_hour12 13 ∧
    (hands_update_proc (fun _ => 0) (fun _ => 0xffff) true cLocale
      ⟨0, 13, 5, 2, 3⟩ ⟨72, 84⟩ [0, 0, 0] [0, 0, 0]).s_hour_buffer
        = some (cstr "13" ++ [0]) ∧
    (hands_update_proc (fun _ => 0) (fun _ => 0xffff) false cLocale
      ⟨0, 13, 5, 2, 3⟩ ⟨72, 84⟩ [0, 0, 0] [0, 0, 0]).s_hour_buffer
        = some (cstr "01" ++ [0]) ∧
    (hands_update_proc (fun _ => 0) (fun _ => 0xffff) true cLocale
      ⟨0, 13, 5, 2, 3⟩ ⟨72, 84⟩ [0, 0, 0] [0, 0, 0]).s_hour_buffer
        ≠ (hands_update_proc (fun _ => 0) (fun _ => 0xffff) false cLocale
      ⟨0, 13, 5, 2, 3⟩ ⟨72, 84⟩ [0, 0, 0] [0, 0, 0]).s_hour_buffer := by
  decide

/-- C4 amended: the 12-hour conversion is gated by the preference query.  For
every raw hour `h` in `0..23`: when `clock_is_24h_style()` answers false the
hour formatted into the hour label is the 12-hour-converted hour; when it
answers true the hour formatted is the raw hour `h`; the two labels agree
exactly when `1 ≤ h ≤ 12`. -/
theorem hour_conversion_gated (sin_lookup cos_lookup : Int → Int)
    (loc : Locale) (t : Tm) (center : GPoint) (hb mb : List Nat)
    (h0 : 0 ≤ t.tm_hour) (h23 : t.tm_hour ≤ 23) (hlen : hb.length = 3) :
    (hands_update_proc sin_lookup cos_lookup false loc t center hb mb).t.tm_hour
      = spec_hour12 t.tm_hour ∧
    (hands_update_proc sin_lookup cos_lookup false loc t center hb mb).s_hour_buffer
      = some (twoDigits (spec_hour12 t.tm_hour) ++ [0]) ∧
    (hands_update_proc sin_lookup cos_lookup true loc t center hb mb).t.tm_hour
      = t.tm_hour ∧
    (hands_update_proc sin_lookup cos_lookup true loc t center hb mb).s_hour_buffer
      = some (twoDigits t.tm_hour ++ [0]) ∧
    ((hands_update_proc sin_lookup cos_lookup true loc t center hb mb).s_hour_buffer
      = (hands_update_proc sin_lookup cos_lookup false loc t center hb mb).s_hour_buffer
      ↔ 1 ≤ t.tm_hour ∧ t.tm_hour ≤ 12) := by
  have hf := hands_tm_hour sin_lookup cos_lookup false loc t center hb mb h0 h23
  have ht := hands_tm_hour sin_lookup cos_lookup true loc t center hb mb h0 h23
  simp only [Bool.false_eq_true, if_false] at hf
  simp only [if_true] at ht
  have hr := spec_hour12_range t.tm_hour h0 h23
  have hbf :
      (hands_update_proc sin_lookup cos_lookup false loc t center hb mb).s_hour_buffer
        = some (twoDigits (spec_hour12 t.tm_hour) ++ [0]) := by
    rw [hands_hour_buffer, strftime_H hb loc _ hlen (by rw [hf]; omega)
      (by rw [hf]; omega), hf]
  have hbt :
      (hands_update_proc sin_lookup cos_lookup true loc t center hb mb).s_hour_buffer
        = some (twoDigits t.tm_hour ++ [0]) := by
    rw [hands_hour_buffer, strftime_H hb loc _ hlen (by rw [ht]; omega)
      (by rw [ht]; omega), ht]
  refine ⟨hf, hbf, ht, hbt, ?_⟩
  rw [hbf, hbt]
  constructor
  · intro heq
    have h2 : twoDigits t.tm_hour = twoDigits (spec_hour12 t.tm_hour) :=
      List.append_cancel_right (Option.some.inj heq)
    have h3 := twoDigits_inj _ _ h0 (by omega) (by omega) (by omega) h2
    rw [h3]
    exact hr
  · intro h112
    rw [spec_hour12, if_neg (by omega), if_neg (by omega)]

/-- Witness of the amended C4 at the raw hour 13. -/
theorem hour_conversion_gated_witness :
    (hands_update_proc (fun _ => 0) (fun _ => 0xffff) false cLocale
      ⟨0, 13, 5, 2, 3⟩ ⟨72, 84⟩ [0, 0, 0] [0, 0, 0]).t.tm_hour
        = spec_hour12 13 ∧
    (hands_update_proc (fun _ => 0) (fun _ => 0xffff) true cLocale
      ⟨0, 13, 5, 2, 3⟩ ⟨72, 84⟩ [0, 0, 0] [0, 0, 0]).t.tm_hour = 13 :=
  ⟨(hour_conversion_gated (fun _ => 0) (fun _ => 0xffff) cLocale
      ⟨0, 13, 5, 2, 3⟩ ⟨72, 84⟩ [0, 0, 0] [0, 0, 0] (by decide) (by decide)
      rfl).1,
    (hour_conversion_gated (fun _ => 0) (fun _ => 0xffff) cLocale
      ⟨0, 13, 5, 2, 3⟩ ⟨72, 84⟩ [0, 0, 0] [0, 0, 0] (by decide) (by decide)
      rfl).2.2.1⟩

/-- C5: for every clock reading with hour `h` in `0..23` and minute in
`0..59`, the hour label and the minute label that `hands_update_proc` stores
in its 3-byte buffers are two decimal digits followed by the terminator.  The
value of the hour digits is the adjusted hour: `h` itself when
`clock_is_24h_style()` answers true, and the 12-hour value of `h` (12 for 0,
`h - 12` for `13..23`, `h` for `1..12`) when it answers false; this is also
the hour left in `tm_hour`.  The value of the minute digits is the minute.
Both calls of `strftime` succeed, so nothing is truncated. -/
theorem labels_two_digits (sin_lookup cos_lookup : Int → Int) (b : Bool)
    (loc : Locale) (t : Tm) (center : GPoint) (hb mb : List Nat)
    (h0 : 0 ≤ t.tm_hour) (h23 : t.tm_hour ≤ 23)
    (m0 : 0 ≤ t.tm_min) (m59 : t.tm_min ≤ 59)
    (hlen : hb.length = 3) (mlen : mb.length = 3) :
    ∃ h1 h2 m1 m2 : Nat, h1 ≤ 9 ∧ h2 ≤ 9 ∧ m1 ≤ 9 ∧ m2 ≤ 9 ∧
      (hands_update_proc sin_lookup cos_lookup b loc t center hb mb).s_hour_buffer
        = some [0x30 + h1, 0x30 + h2, 0] ∧
      (10 * h1 + h2 : Int)
        = (if b then t.tm_hour else spec_hour12 t.tm_hour) ∧
      (10 * h1 + h2 : Int)
        = (hands_update_proc sin_lookup cos_lookup b loc t center hb mb).t.tm_hour ∧
      (hands_update_proc sin_lookup cos_lookup b loc t center hb mb).s_minute_buffer
        = some [0x30 + m1, 0x30 + m2, 0] ∧
      (10 * m1 + m2 : Int) = t.tm_min := by
  have hh := hands_tm_hour sin_lookup cos_lookup b loc t center hb mb h0 h23
  have hm := hands_tm_min sin_lookup cos_lookup b loc t center hb mb
  have hr := spec_hour12_range t.tm_hour h0 h23
  have hrange :
      0 ≤ (hands_update_proc sin_lookup cos_lookup b loc t center hb mb).t.tm_hour ∧
      (hands_update_proc sin_lookup cos_lookup b loc t center hb mb).t.tm_hour
        ≤ 23 := by
    rw [hh]
    cases b with
    | true => simp only [if_true]; omega
    | false => simp only [Bool.false_eq_true, if_false]; omega
  obtain ⟨h1, h2, hh1, hh2, hd, hv⟩ :=
    twoDigits_spec _ hrange.1 (by omega)
  obtain ⟨m1, m2, hm1, hm2, md, mv⟩ := twoDigits_spec t.tm_min m0 (by omega)
  refine ⟨h1, h2, m1, m2, hh1, hh2, hm1, hm2, ?_, ?_, hv, ?_, mv⟩
  · rw [hands_hour_buffer, strftime_H hb loc _ hlen hrange.1 hrange.2, hd]
    rfl
  · rw [hv, hh]
  · rw [hands_minute_buffer,
      strftime_M mb loc _ mlen (by rw [hm]; exact m0) (by rw [hm]; exact m59),
      hm, md]
    rfl

/-- Witness of C5 at 13:05 with the 12-hour setting, where the adjustment
changes the hour: the digits have the values 1 and 5 and the labels are "01"
and "05"; with the 24-hour setting the hour label is "13"; and at 09:00 the
labels are "09" and "00". -/
theorem labels_two_digits_witness :
    (∃ h1 h2 m1 m2 : Nat, h1 ≤ 9 ∧ h2 ≤ 9 ∧ m1 ≤ 9 ∧ m2 ≤ 9 ∧
      (hands_update_proc (fun _ => 0) (fun _ => 0xffff) false cLocale
        ⟨5, 13, 5, 2, 3⟩ ⟨72, 84⟩ [0, 0, 0] [0, 0, 0]).s_hour_buffer
        = some [0x30 + h1, 0x30 + h2, 0] ∧
      (10 * h1 + h2 : Int) = (if false then (13 : Int) else spec_hour12 13) ∧
      (10 * h1 + h2 : Int)
        = (hands_update_proc (fun _ => 0) (fun _ => 0xffff) false cLocale
        ⟨5, 13, 5, 2, 3⟩ ⟨72, 84⟩ [0, 0, 0] [0, 0, 0]).t.tm_hour ∧
      (hands_update_proc (fun _ => 0) (fun _ => 0xffff) false cLocale
        ⟨5, 13, 5, 2, 3⟩ ⟨72, 84⟩ [0, 0, 0] [0, 0, 0]).s_minute_buffer
        = some [0x30 + m1, 0x30 + m2, 0] ∧
      (10 * m1 + m2 : Int) = (5 : Int)) ∧
    spec_hour12 13 = 1 ∧
    (hands_update_proc (fun _ => 0) (fun _ => 0xffff) false cLocale
      ⟨5, 13, 5, 2, 3⟩ ⟨72, 84⟩ [0, 0, 0] [0, 0, 0]).s_hour_buffer
      = some (cstr "01" ++ [0]) ∧
    (hands_update_proc (fun _ => 0) (fun _ => 0xffff) false cLocale
      ⟨5, 13, 5, 2, 3⟩ ⟨72, 84⟩ [0, 0, 0] [0, 0, 0]).s_minute_buffer
      = some (cstr "05" ++ [0]) ∧
    (hands_update_proc (fun _ => 0) (fun _ => 0xffff) true cLocale
      ⟨5, 13, 5, 2, 3⟩ ⟨72, 84⟩ [0, 0, 0] [0, 0, 0]).s_hour_buffer
      = some (cstr "13" ++ [0]) ∧
    (hands_update_proc (fun _ => 0) (fun _ => 0xffff) false cLocale
      ⟨0, 9, 5, 2, 3⟩ ⟨72, 84⟩ [0, 0, 0] [0, 0, 0]).s_hour_buffer
      = some (cstr "09" ++ [0]) ∧
    (hands_update_proc (fun _ => 0) (fun _ => 0xffff) false cLocale
      ⟨0, 9, 5, 2, 3⟩ ⟨72, 84⟩ [0, 0, 0] [0, 0, 0]).s_minute_buffer
      = some (cstr "00" ++ [0]) :=
  ⟨labels_two_digits (fun _ => 0) (fun _ => 0xffff) false cLocale
      ⟨5, 13, 5, 2, 3⟩ ⟨72, 84⟩ [0, 0, 0] [0, 0, 0] (by decide) (by decide)
      (by decide) (by decide) rfl rfl,
    by decide, by decide, by decide, by decide, by decide, by decide⟩

/-! ## Theorems: the minute anchor -/

theorem tdiv_pos_eq (a b : Int) (hb : 0 ≤ b) :
    a.tdiv b = if 0 ≤ a then a / b else -((-a) / b) := by
  split
  · next h => exact Int.tdiv_eq_ediv h hb
  · next h =>
    calc a.tdiv b = (-(-a)).tdiv b := by rw [Int.neg_neg]
      _ = -((-a).tdiv b) := Int.neg_tdiv _ _
      _ = -((-a) / b) := by rw [Int.tdiv_eq_ediv (by omega) hb]

theorem hands_minute_angle (sin_lookup cos_lookup : Int → Int) (b : Bool)
    (loc : Locale) (t : Tm) (center : GPoint) (hb mb : List Nat) :
    (hands_update_proc sin_lookup cos_lookup b loc t center hb mb).minute_angle
      = wrap32 (Int.tdiv (wrap32 (TRIG_MAX_ANGLE * t.tm_min)) 60) :=
  rfl

theorem hands_minX (sin_lookup cos_lookup : Int → Int) (b : Bool)
    (loc : Locale) (t : Tm) (center : GPoint) (hb mb : List Nat) :
    (hands_update_proc sin_lookup cos_lookup b loc t center hb mb).minX
      = wrap32 (Int.tdiv (wrap32 (56 * sin_lookup
          (hands_update_proc sin_lookup cos_lookup b loc t center hb mb).minute_angle))
          TRIG_MAX_RATIO + center.x) :=
  rfl

theorem hands_minY (sin_lookup cos_lookup : Int → Int) (b : Bool)
    (loc : Locale) (t : Tm) (center : GPoint) (hb mb : List Nat) :
    (hands_update_proc sin_lookup cos_lookup b loc t center hb mb).minY
      = wrap32 (Int.tdiv (wrap32 (-56 * cos_lookup
          (hands_update_proc sin_lookup cos_lookup b loc t center hb mb).minute_angle))
          TRIG_MAX_RATIO + center.y) :=
  rfl

/-- For a minute in `0..59` neither the product nor the quotient of the angle
computation leaves the 32-bit range, and the angle is the exact quotient. -/
theorem minute_angle_exact (m : Int) (m0 : 0 ≤ m) (m59 : m ≤ 59) :
    wrap32 (Int.tdiv (wrap32 (TRIG_MAX_ANGLE * m)) 60) = (65536 * m) / 60 := by
  have hA : TRIG_MAX_ANGLE * m = 65536 * m := rfl
  rw [hA, wrap32_eq (65536 * m) (by omega) (by omega),
    Int.tdiv_eq_ediv (by omega) (by decide),
    wrap32_eq (65536 * m / 60) (by omega) (by omega)]

/-- The offset `56 * v / TRIG_MAX_RATIO + center` of one axis, for a lookup
value `v` within `-TRIG_MAX_RATIO .. TRIG_MAX_RATIO` and a 16-bit centre
coordinate: no step leaves the 32-bit range. -/
theorem axis_exact (k v z : Int) (hk : k = 56 ∨ k = -56)
    (hv1 : -65535 ≤ v) (hv2 : v ≤ 65535)
    (hz1 : -32768 ≤ z) (hz2 : z ≤ 32767) :
    wrap32 (Int.tdiv (wrap32 (k * v)) TRIG_MAX_RATIO + z)
      = Int.tdiv (k * v) 65535 + z ∧
    -56 ≤ Int.tdiv (k * v) 65535 ∧ Int.tdiv (k * v) 65535 ≤ 56 := by
  have hR : TRIG_MAX_RATIO = 65535 := rfl
  rw [hR]
  have hb : -56 ≤ Int.tdiv (k * v) 65535 ∧ Int.tdiv (k * v) 65535 ≤ 56 := by
    rw [tdiv_pos_eq _ _ (by decide)]
    rcases hk with hk | hk <;> subst hk <;> split <;> omega
  refine ⟨?_, hb⟩
  have hw : wrap32 (k * v) = k * v := by
    rcases hk with hk | hk <;> subst hk <;>
      exact wrap32_eq _ (by omega) (by omega)
  rw [hw, wrap32_eq _ (by omega) (by omega)]

/-- C7: with `TRIG_MAX_ANGLE = 0x10000`, `TRIG_MAX_RATIO = 0xffff` and lookups
with `sin_lookup(0) = 0`, `cos_lookup(0) = TRIG_MAX_RATIO`,
`sin_lookup(TRIG_MAX_ANGLE/4) = TRIG_MAX_RATIO`,
`cos_lookup(TRIG_MAX_ANGLE/4) = 0`, for every centre point (16-bit
coordinates) minute 0 gives the anchor `(center.x, center.y - 56)` and minute
15 gives `(center.x + 56, center.y)`. -/
theorem minute_anchor_quarters (sin_lookup cos_lookup : Int → Int) (b : Bool)
    (loc : Locale) (t : Tm) (center : GPoint) (hb mb : List Nat)
    (hs0 : sin_lookup 0 = 0) (hc0 : cos_lookup 0 = TRIG_MAX_RATIO)
    (hs1 : sin_lookup (Int.tdiv TRIG_MAX_ANGLE 4) = TRIG_MAX_RATIO)
    (hc1 : cos_lookup (Int.tdiv TRIG_MAX_ANGLE 4) = 0)
    (hx1 : -32768 ≤ center.x) (hx2 : center.x ≤ 32767)
    (hy1 : -32768 ≤ center.y) (hy2 : center.y ≤ 32767) :
    (t.tm_min = 0 →
      (hands_update_proc sin_lookup cos_lookup b loc t center hb mb).minX
        = center.x ∧
      (hands_update_proc sin_lookup cos_lookup b loc t center hb mb).minY
        = center.y - 56) ∧
    (t.tm_min = 15 →
      (hands_update_proc sin_lookup cos_lookup b loc t center hb mb).minX
        = center.x + 56 ∧
      (hands_update_proc sin_lookup cos_lookup b loc t center hb mb).minY
        = center.y) := by
  have hq : Int.tdiv TRIG_MAX_ANGLE 4 = 16384 := by decide
  have hR : TRIG_MAX_RATIO = 65535 := rfl
  rw [hq] at hs1 hc1
  rw [hR] at hs1 hc0
  constructor
  · intro hm
    have ha :
        (hands_update_proc sin_lookup cos_lookup b loc t center hb mb).minute_angle
          = 0 := by
      rw [hands_minute_angle, minute_angle_exact _ (by omega) (by omega), hm]
      decide
    rw [hands_minX, hands_minY, ha, hs0, hc0]
    have e1 := (axis_exact 56 0 center.x (Or.inl rfl) (by decide) (by decide)
      hx1 hx2).1
    have e2 := (axis_exact (-56) 65535 center.y (Or.inr rfl) (by decide)
      (by decide) hy1 hy2).1
    rw [e1, e2]
    have d1 : Int.tdiv (56 * 0) 65535 = 0 := by decide
    have d2 : Int.tdiv (-56 * 65535) 65535 = -56 := by decide
    rw [d1, d2]
    constructor <;> omega
  · intro hm
    have ha :
        (hands_update_proc sin_lookup cos_lookup b loc t center hb mb).minute_angle
          = 16384 := by
      rw [hands_minute_angle, minute_angle_exact _ (by omega) (by omega), hm]
      decide
    rw [hands_minX, hands_minY, ha, hs1, hc1]
    have e1 := (axis_exact 56 65535 center.x (Or.inl rfl) (by decide)
      (by decide) hx1 hx2).1
    have e2 := (axis_exact (-56) 0 center.y (Or.inr rfl) (by decide)
      (by decide) hy1 hy2).1
    rw [e1, e2]
    have d1 : Int.tdiv (56 * 65535) 65535 = 56 := by decide
    have d2 : Int.tdiv (-56 * 0) 65535 = 0 := by decide
    rw [d1, d2]
    constructor <;> omega

/-- Witness of C7 on the 144 x 168 screen, whose centre is (72, 84): minute 0
gives (72, 28) and minute 15 gives (128, 84). -/
theorem minute_anchor_quarters_witness :
    ((hands_update_proc quarter_sin quarter_cos false cLocale ⟨0, 9, 5, 2, 3⟩
        ⟨72, 84⟩ [0, 0, 0] [0, 0, 0]).minX = 72 ∧
      (hands_update_proc quarter_sin quarter_cos false cLocale ⟨0, 9, 5, 2, 3⟩
        ⟨72, 84⟩ [0, 0, 0] [0, 0, 0]).minY = 84 - 56) ∧
    ((hands_update_proc quarter_sin quarter_cos false cLocale ⟨15, 9, 5, 2, 3⟩
        ⟨72, 84⟩ [0, 0, 0] [0, 0, 0]).minX = 72 + 56 ∧
      (hands_update_proc quarter_sin quarter_cos false cLocale ⟨15, 9, 5, 2, 3⟩
        ⟨72, 84⟩ [0, 0, 0] [0, 0, 0]).minY = 84) :=
  ⟨(minute_anchor_quarters quarter_sin quarter_cos false cLocale
      ⟨0, 9, 5, 2, 3⟩ ⟨72, 84⟩ [0, 0, 0] [0, 0, 0] (by decide) (by decide)
      (by decide) (by decide) (by decide) (by decide) (by decide)
      (by decide)).1 rfl,
    (minute_anchor_quarters quarter_sin quarter_cos false cLocale
      ⟨15, 9, 5, 2, 3⟩ ⟨72, 84⟩ [0, 0, 0] [0, 0, 0] (by decide) (by decide)
      (by decide) (by decide) (by decide) (by decide) (by decide)
      (by decide)).2 rfl⟩

/-- C10: for every minute `m` in `0..59` the product `TRIG_MAX_ANGLE * m`
stays in the signed 32-bit range, so `minute_angle` is the exact C quotient
`TRIG_MAX_ANGLE * m / 60`; it satisfies `0 ≤ minute_angle < TRIG_MAX_ANGLE`,
is strictly increasing in `m`, and equals `k * TRIG_MAX_ANGLE / 4` at
`m = 15 * k` for `k = 0..3`.  For every lookup value `v` with
`|v| ≤ TRIG_MAX_RATIO` the products `56 * v` and `-56 * v` stay in the signed
32-bit range. -/
theorem minute_angle_no_overflow (sin_lookup cos_lookup : Int → Int) (b : Bool)
    (loc : Locale) (t : Tm) (center : GPoint) (hb mb : List Nat)
    (m0 : 0 ≤ t.tm_min) (m59 : t.tm_min ≤ 59) :
    (-2147483648 ≤ TRIG_MAX_ANGLE * t.tm_min ∧
      TRIG_MAX_ANGLE * t.tm_min < 2147483648) ∧
    (hands_update_proc sin_lookup cos_lookup b loc t center hb mb).minute_angle
      = Int.tdiv (TRIG_MAX_ANGLE * t.tm_min) 60 ∧
    0 ≤ (hands_update_proc sin_lookup cos_lookup b loc t center hb mb).minute_angle ∧
    (hands_update_proc sin_lookup cos_lookup b loc t center hb mb).minute_angle
      < TRIG_MAX_ANGLE ∧
    (∀ (sin2 cos2 : Int → Int) (b2 : Bool) (loc2 : Locale) (t2 : Tm)
        (center2 : GPoint) (hb2 mb2 : List Nat),
      t.tm_min < t2.tm_min → t2.tm_min ≤ 59 →
      (hands_update_proc sin_lookup cos_lookup b loc t center hb mb).minute_angle
        < (hands_update_proc sin2 cos2 b2 loc2 t2 center2 hb2 mb2).minute_angle) ∧
    (∀ k : Int, 0 ≤ k → k ≤ 3 → t.tm_min = 15 * k →
      (hands_update_proc sin_lookup cos_lookup b loc t center hb mb).minute_angle
        = Int.tdiv (k * TRIG_MAX_ANGLE) 4) ∧
    (∀ v : Int, - TRIG_MAX_RATIO ≤ v → v ≤ TRIG_MAX_RATIO →
      (-2147483648 ≤ 56 * v ∧ 56 * v < 2147483648 ∧ wrap32 (56 * v) = 56 * v) ∧
      (-2147483648 ≤ -56 * v ∧ -56 * v < 2147483648 ∧
        wrap32 (-56 * v) = -56 * v)) := by
  have hA : TRIG_MAX_ANGLE = 65536 := rfl
  have hR : TRIG_MAX_RATIO = 65535 := rfl
  have ha := minute_angle_exact t.tm_min m0 m59
  rw [hands_minute_angle, ha, hA, hR]
  refine ⟨by omega, ?_, by omega, by omega, ?_, ?_, ?_⟩
  · rw [Int.tdiv_eq_ediv (by omega) (by decide)]
  · intro sin2 cos2 b2 loc2 t2 center2 hb2 mb2 hlt h59
    rw [hands_minute_angle, minute_angle_exact t2.tm_min (by omega) h59]
    omega
  · intro k k0 k3 hk
    rw [Int.tdiv_eq_ediv (by omega) (by decide)]
    omega
  · intro v v1 v2
    exact ⟨⟨by omega, by omega, wrap32_eq _ (by omega) (by omega)⟩,
      ⟨by omega, by omega, wrap32_eq _ (by omega) (by omega)⟩⟩

/-- Witness of C10 at minute 45: the angle is three quarter turns. -/
theorem minute_angle_no_overflow_witness :
    (hands_update_proc quarter_sin quarter_cos false cLocale ⟨45, 9, 5, 2, 3⟩
      ⟨72, 84⟩ [0, 0, 0] [0, 0, 0]).minute_angle
      = Int.tdiv (3 * TRIG_MAX_ANGLE) 4 :=
  (minute_angle_no_overflow quarter_sin quarter_cos false cLocale
    ⟨45, 9, 5, 2, 3⟩ ⟨72, 84⟩ [0, 0, 0] [0, 0, 0] (by decide)
    (by decide)).2.2.2.2.2.1 3 (by decide) (by decide) (by decide)

/-! ## Theorems: the redraw trigger -/

/-- C9: in the two-state machine whose initial state is idle, one tick
followed by one redraw pass goes idle, dirty, idle; and any number `n ≥ 1` of
ticks leaves the state dirty exactly as one tick does, so one redraw pass
after them returns to idle. -/
theorem redraw_trigger (n : Nat) (hn : 1 ≤ n) :
    initial_state = RedrawState.idle ∧
    timer_tick initial_state = RedrawState.dirty ∧
    redraw_pass (timer_tick initial_state) = RedrawState.idle ∧
    ticks n initial_state = timer_tick initial_state ∧
    redraw_pass (ticks n initial_state) = RedrawState.idle := by
  refine ⟨rfl, rfl, rfl, ?_, rfl⟩
  obtain ⟨k, rfl⟩ : ∃ k, n = k + 1 := ⟨n - 1, by omega⟩
  rfl

/-- Witness of C9 with three ticks before the redraw pass. -/
theorem redraw_trigger_witness :
    ticks 3 initial_state = timer_tick initial_state ∧
    redraw_pass (ticks 3 initial_state) = RedrawState.idle :=
  ⟨(redraw_trigger 3 (by decide)).2.2.2.1, (redraw_trigger 3 (by decide)).2.2.2.2⟩

/-! ## Theorems: the date label -/

/-- On a buffer holding a C string of length `n`, `upcase` maps the first `n`
bytes and keeps the rest. -/
theorem upcase_eq_map (str : List Nat) (n : Nat) (h : IsCStr str n) :
    upcase str = some ((str.take n).map upcaseByte ++ str.drop n) := by
  obtain ⟨out, ho, _, hget⟩ := upcase_run str n h
  rw [ho]
  congr 1
  apply List.ext_getElem?
  intro j
  rw [hget j]
  have hn : n ≤ str.length := Nat.le_of_lt (List.getElem?_eq_some_iff.mp h.1).1
  have hl : ((str.take n).map upcaseByte).length = n := by
    rw [List.length_map, List.length_take]
    omega
  by_cases hj : j < n
  · rw [if_pos hj, List.getElem?_append_left (by rw [hl]; exact hj),
      List.getElem?_map, List.getElem?_take_of_lt hj]
  · rw [if_neg hj, List.getElem?_append_right (by rw [hl]; omega), hl,
      List.getElem?_drop]
    congr 1
    omega

/-- What `strftime` stores into an 11-byte buffer for the format
`%a %b %d` when both abbreviated names are three bytes long. -/
theorem strftime_date (s : List Nat) (loc : Locale) (t : Tm)
    (a1 a2 a3 b1 b2 b3 : Nat) (hs : s.length = 11)
    (hw : 0 ≤ t.tm_wday ∧ t.tm_wday ≤ 6) (hm : 0 ≤ t.tm_mon ∧ t.tm_mon ≤ 11)
    (hd : 1 ≤ t.tm_mday ∧ t.tm_mday ≤ 31)
    (hday : loc.abday t.tm_wday.toNat = [a1, a2, a3])
    (hmon : loc.abmon t.tm_mon.toNat = [b1, b2, b3]) :
    strftime s 11 (cstr "%a %b %d") loc t
      = some [a1, a2, a3, 0x20, b1, b2, b3, 0x20,
          0x30 + (t.tm_mday / 10).toNat, 0x30 + (t.tm_mday % 10).toNat, 0] := by
  have hf : cstr "%a %b %d" = [0x25, 0x61, 0x20, 0x25, 0x62, 0x20, 0x25, 0x64] := by
    decide
  rw [hf]
  unfold strftime
  simp only [strftimeExpand, strftimeConv, if_true, if_pos hw, if_pos hm,
    if_pos hd, hday, hmon]
  simp [twoDigits, hs]

/-- C6: for every clock reading (weekday `0..6`, month `0..11`, day of month
`1..31`) whose abbreviated weekday and month names are three non-NUL bytes
each, `date_update_proc` leaves in the 11-byte `s_date_buffer` exactly ten
characters and the terminator: the three upper-cased weekday bytes, a space,
the three upper-cased month bytes, a space, and the two decimal digits of the
day, zero-padded.  No byte of the label is a lowercase letter, and a name
byte that is a letter comes out in `'A'..'Z'`. -/
theorem date_label (loc : Locale) (t : Tm) (s_date_buffer : List Nat)
    (a1 a2 a3 b1 b2 b3 : Nat) (hs : s_date_buffer.length = 11)
    (hw : 0 ≤ t.tm_wday ∧ t.tm_wday ≤ 6) (hm : 0 ≤ t.tm_mon ∧ t.tm_mon ≤ 11)
    (hd : 1 ≤ t.tm_mday ∧ t.tm_mday ≤ 31)
    (hday : loc.abday t.tm_wday.toNat = [a1, a2, a3])
    (hmon : loc.abmon t.tm_mon.toNat = [b1, b2, b3])
    (ha : a1 ≠ 0 ∧ a2 ≠ 0 ∧ a3 ≠ 0) (hb : b1 ≠ 0 ∧ b2 ≠ 0 ∧ b3 ≠ 0) :
    ∃ d1 d2 : Nat, d1 ≤ 9 ∧ d2 ≤ 9 ∧ (10 * d1 + d2 : Int) = t.tm_mday ∧
      date_update_proc loc t s_date_buffer
        = some [upcaseByte a1, upcaseByte a2, upcaseByte a3, 0x20,
            upcaseByte b1, upcaseByte b2, upcaseByte b3, 0x20,
            0x30 + d1, 0x30 + d2, 0] ∧
      (∀ x ∈ [upcaseByte a1, upcaseByte a2, upcaseByte a3, 0x20,
            upcaseByte b1, upcaseByte b2, upcaseByte b3, 0x20,
            0x30 + d1, 0x30 + d2, 0], ¬ (0x61 ≤ x ∧ x ≤ 0x7a)) ∧
      (∀ x ∈ [a1, a2, a3, b1, b2, b3],
        (0x41 ≤ x ∧ x ≤ 0x5a) ∨ (0x61 ≤ x ∧ x ≤ 0x7a) →
        0x41 ≤ upcaseByte x ∧ upcaseByte x ≤ 0x5a) := by
  refine ⟨(t.tm_mday / 10).toNat, (t.tm_mday % 10).toNat, by omega, by omega,
    by omega, ?_, ?_, ?_⟩
  · unfold date_update_proc
    rw [strftime_date s_date_buffer loc t a1 a2 a3 b1 b2 b3 hs hw hm hd hday hmon]
    simp only
    have hstr : IsCStr [a1, a2, a3, 0x20, b1, b2, b3, 0x20,
        0x30 + (t.tm_mday / 10).toNat, 0x30 + (t.tm_mday % 10).toNat, 0] 10 := by
      refine ⟨rfl, ?_⟩
      intro j hj
      have hcases : j = 0 ∨ j = 1 ∨ j = 2 ∨ j = 3 ∨ j = 4 ∨ j = 5 ∨ j = 6 ∨
          j = 7 ∨ j = 8 ∨ j = 9 := by omega
      rcases hcases with h | h | h | h | h | h | h | h | h | h <;> subst h <;>
        simp <;> omega
    rw [upcase_eq_map _ 10 hstr]
    have hd1 : upcaseByte (0x30 + (t.tm_mday / 10).toNat)
        = 0x30 + (t.tm_mday / 10).toNat := by
      unfold upcaseByte
      rw [if_neg (by omega)]
    have hd2 : upcaseByte (0x30 + (t.tm_mday % 10).toNat)
        = 0x30 + (t.tm_mday % 10).toNat := by
      unfold upcaseByte
      rw [if_neg (by omega)]
    have hsp : upcaseByte 0x20 = 0x20 := by decide
    simp only [List.take, List.drop, List.map, List.cons_append, List.nil_append,
      hd1, hd2, hsp]
  · intro x hx
    simp only [List.mem_cons, List.mem_singleton, List.not_mem_nil, or_false] at hx
    rcases hx with h | h | h | h | h | h | h | h | h | h | h <;> subst h <;>
      first
        | exact upcaseByte_not_lower _
        | omega
  · intro x _ hl
    unfold upcaseByte
    split <;> omega

/-- Witness of C6: Wednesday, March, day 5 in the "C" locale gives exactly
"WED MAR 05". -/
theorem date_label_witness :
    date_update_proc cLocale ⟨0, 9, 5, 2, 3⟩ s_date_buffer_initial
      = some (cstr "WED MAR 05" ++ [0]) := by
  obtain ⟨d1, d2, _, _, hv, hres, _, _⟩ :=
    date_label cLocale ⟨0, 9, 5, 2, 3⟩ s_date_buffer_initial
      0x57 0x65 0x64 0x4d 0x61 0x72 rfl (by decide) (by decide) (by decide)
      (by decide) (by decide) (by decide) (by decide)
  rw [hres]
  have h1 : d1 = 0 := by
    have : (10 * d1 + d2 : Int) = 5 := hv
    omega
  have h2 : d2 = 5 := by
    have : (10 * d1 + d2 : Int) = 5 := hv
    omega
  subst h1 h2
  decide

end Orbital
